import Mathlib

set_option maxRecDepth 1000000
set_option maxHeartbeats 2000000

/-!
# Verification of the go-magic DID-token library

A shallow embedding of the `magic` Go package: the error-returning variant
(`Token` with `didToken`/`proof`/`claim` fields) and the panic-based variant
(`PToken` holding only the raw `DIDToken` string), together with executable
models of the pieces of the Go standard library the package uses:
`base64.StdEncoding` decoding/encoding, `encoding/json` unmarshalling into
`[]string` and `map[string]interface{}`, and `strings.Split`.

JSON numbers are modelled exactly as decimal pairs `mantissa * 10 ^ exp10`
(Go parses them into `float64`; the claims under verification only involve
integer timestamps, where the two agree). Go runtime panics (failed type
assertions) are modelled as an explicit `panicked` outcome.
-/

/-! ## JSON values

`Jval` models Go's `interface{}` holding a decoded JSON value.  Arrays and
objects use the mutual types `JArr`/`JObj` (object fields in insertion
order, as produced by assignment into a Go map). -/

mutual
inductive Jval : Type where
  | jnull : Jval
  | jbool (b : Bool) : Jval
  | jnum (mantissa : Int) (exp10 : Int) : Jval
  | jstr (s : String) : Jval
  | jarr (elems : JArr) : Jval
  | jobj (fields : JObj) : Jval

inductive JArr : Type where
  | nil : JArr
  | cons (hd : Jval) (tl : JArr) : JArr

inductive JObj : Type where
  | nil : JObj
  | cons (key : String) (val : Jval) (tl : JObj) : JObj
end

/-- Lookup in a decoded JSON object: Go's `claim[key]` (a `nil` interface when
the key is absent is modelled as `none`). -/
def JObj.lookup : JObj → String → Option Jval
  | .nil, _ => none
  | .cons k v t, key => if k = key then some v else JObj.lookup t key

/-- Key-presence test: Go's `_, ok := claim[key]`. -/
def JObj.hasKey : JObj → String → Bool
  | .nil, _ => false
  | .cons k _ t, key => k == key || JObj.hasKey t key

/-- Go map assignment `m[k] = v`: overwrite if the key exists, else append. -/
def JObj.assign : JObj → String → Jval → JObj
  | .nil, k, v => .cons k v .nil
  | .cons k' v' t, k, v =>
    if k' = k then .cons k' v t else .cons k' v' (JObj.assign t k v)

/-- Build a Go map from JSON object fields in textual order (duplicate keys:
last occurrence wins, as in `encoding/json`). -/
def goMapOfAux : JObj → JObj → JObj
  | acc, .nil => acc
  | acc, .cons k v t => goMapOfAux (acc.assign k v) t

def goMapOf (fields : JObj) : JObj := goMapOfAux .nil fields

def JObj.append : JObj → JObj → JObj
  | .nil, o => o
  | .cons k v t, o => .cons k v (JObj.append t o)

/-! ## JSON scanner helpers -/

/-- JSON whitespace accepted by `encoding/json`. -/
def isJsonWs (c : Char) : Bool := c = ' ' || c = '\t' || c = '\n' || c = '\r'

def skipWs : List Char → List Char
  | [] => []
  | c :: cs => if isJsonWs c then skipWs cs else c :: cs

def digitChar (n : Nat) : Char :=
  ['0', '1', '2', '3', '4', '5', '6', '7', '8', '9'].getD n '0'

def digitVal (c : Char) : Nat := c.toNat - 48

def isDigitChar (c : Char) : Bool := 48 ≤ c.toNat && c.toNat ≤ 57

def digitsToNat (ds : List Char) : Nat :=
  ds.foldl (fun acc c => acc * 10 + digitVal c) 0

def hexVal (c : Char) : Option Nat :=
  if 48 ≤ c.toNat && c.toNat ≤ 57 then some (c.toNat - 48)
  else if 97 ≤ c.toNat && c.toNat ≤ 102 then some (c.toNat - 97 + 10)
  else if 65 ≤ c.toNat && c.toNat ≤ 70 then some (c.toNat - 65 + 10)
  else none

/-- Unescaping of a single-character JSON escape `\e`. -/
def escUnchar : Char → Option Char
  | '"' => some '"'
  | '\\' => some '\\'
  | '/' => some '/'
  | 'b' => some (Char.ofNat 8)
  | 'f' => some (Char.ofNat 12)
  | 'n' => some '\n'
  | 'r' => some '\r'
  | 't' => some '\t'
  | _ => none

/-- Scan a JSON string literal body (after the opening quote), returning the
decoded characters and the input after the closing quote.  Unescaped control
characters are rejected, as in `encoding/json`.  Escaped surrogate code
points are modelled as U+FFFD (Go additionally combines paired surrogates;
no behaviour verified here depends on that). -/
def parseStrAux : List Char → Option (List Char × List Char)
  | [] => none
  | c :: rest =>
    if c = '"' then some ([], rest)
    else if c = '\\' then
      match rest with
      | 'u' :: h1 :: h2 :: h3 :: h4 :: rest2 =>
        match hexVal h1, hexVal h2, hexVal h3, hexVal h4 with
        | some a, some b, some c3, some d =>
          let n := ((a * 16 + b) * 16 + c3) * 16 + d
          let ch := if 55296 ≤ n && n ≤ 57343 then Char.ofNat 65533 else Char.ofNat n
          (parseStrAux rest2).map (fun pr => (ch :: pr.1, pr.2))
        | _, _, _, _ => none
      | e :: rest2 =>
        match escUnchar e with
        | none => none
        | some ch => (parseStrAux rest2).map (fun pr => (ch :: pr.1, pr.2))
      | [] => none
    else if c.toNat < 32 then none
    else (parseStrAux rest).map (fun pr => (c :: pr.1, pr.2))

/-- Integer part of a JSON number: `0`, or a nonzero digit followed by
digits. -/
def parseIntDigits : List Char → Option (List Char × List Char)
  | [] => none
  | c :: rest =>
    if c = '0' then some (['0'], rest)
    else if isDigitChar c then
      some (c :: rest.takeWhile isDigitChar, rest.dropWhile isDigitChar)
    else none

/-- Optional fraction part `.digits`. -/
def parseFrac : List Char → Option (List Char × List Char)
  | [] => some ([], [])
  | c :: t =>
    if c = '.' then
      let ds := t.takeWhile isDigitChar
      if ds.isEmpty then none else some (ds, t.dropWhile isDigitChar)
    else some ([], c :: t)

def parseExpMag (neg : Bool) (t : List Char) : Option (Int × List Char) :=
  let ds := t.takeWhile isDigitChar
  if ds.isEmpty then none
  else
    some ((if neg then -(digitsToNat ds : Int) else (digitsToNat ds : Int)),
      t.dropWhile isDigitChar)

def parseExpDigits : List Char → Option (Int × List Char)
  | [] => none
  | c :: r =>
    if c = '+' then parseExpMag false r
    else if c = '-' then parseExpMag true r
    else parseExpMag false (c :: r)

/-- Optional exponent part `e[±]digits`. -/
def parseExp : List Char → Option (Int × List Char)
  | [] => some (0, [])
  | c :: t =>
    if c = 'e' || c = 'E' then parseExpDigits t
    else some (0, c :: t)

/-- Magnitude of a JSON number as an exact decimal pair. -/
def parseNumMag (cs : List Char) : Option ((Nat × Int) × List Char) :=
  match parseIntDigits cs with
  | none => none
  | some (ip, cs2) =>
    match parseFrac cs2 with
    | none => none
    | some (fd, cs3) =>
      match parseExp cs3 with
      | none => none
      | some (ex, cs4) =>
        some ((digitsToNat (ip ++ fd), ex - (fd.length : Int)), cs4)

/-- A JSON number with optional leading minus sign. -/
def parseNumber (cs : List Char) : Option ((Int × Int) × List Char) :=
  match cs with
  | [] => none
  | c :: t =>
    if c = '-' then
      (parseNumMag t).map (fun pr => ((-(pr.1.1 : Int), pr.1.2), pr.2))
    else
      (parseNumMag cs).map (fun pr => (((pr.1.1 : Int), pr.1.2), pr.2))

/-! ## The JSON value parser (fuel-indexed recursive descent) -/

mutual
def parseVal : Nat → List Char → Option (Jval × List Char)
  | 0, _ => none
  | fuel + 1, cs =>
    match skipWs cs with
    | [] => none
    | c :: rest =>
      if c = '\x7b' then
        match skipWs rest with
        | [] => none
        | d :: rest2 =>
          if d = '\x7d' then some (.jobj .nil, rest2)
          else (parseObjItems fuel (d :: rest2)).map (fun pr => (Jval.jobj (goMapOf pr.1), pr.2))
      else if c = '[' then
        match skipWs rest with
        | [] => none
        | d :: rest2 =>
          if d = ']' then some (.jarr .nil, rest2)
          else (parseArrItems fuel (d :: rest2)).map (fun pr => (Jval.jarr pr.1, pr.2))
      else if c = '"' then
        (parseStrAux rest).map (fun pr => (Jval.jstr (String.mk pr.1), pr.2))
      else if c = 't' then
        match rest with
        | 'r' :: 'u' :: 'e' :: rest2 => some (.jbool true, rest2)
        | _ => none
      else if c = 'f' then
        match rest with
        | 'a' :: 'l' :: 's' :: 'e' :: rest2 => some (.jbool false, rest2)
        | _ => none
      else if c = 'n' then
        match rest with
        | 'u' :: 'l' :: 'l' :: rest2 => some (.jnull, rest2)
        | _ => none
      else
        (parseNumber (c :: rest)).map (fun pr => (Jval.jnum pr.1.1 pr.1.2, pr.2))

def parseArrItems : Nat → List Char → Option (JArr × List Char)
  | 0, _ => none
  | fuel + 1, cs =>
    match parseVal fuel cs with
    | none => none
    | some (v, rest) =>
      match skipWs rest with
      | [] => none
      | d :: rest2 =>
        if d = ',' then (parseArrItems fuel rest2).map (fun pr => (JArr.cons v pr.1, pr.2))
        else if d = ']' then some (JArr.cons v .nil, rest2)
        else none

def parseObjItems : Nat → List Char → Option (JObj × List Char)
  | 0, _ => none
  | fuel + 1, cs =>
    match cs with
    | '"' :: rest =>
      match parseStrAux rest with
      | none => none
      | some (k, rest2) =>
        match skipWs rest2 with
        | ':' :: rest3 =>
          match parseVal fuel rest3 with
          | none => none
          | some (v, rest4) =>
            match skipWs rest4 with
            | [] => none
            | d :: rest5 =>
              if d = ',' then
                (parseObjItems fuel (skipWs rest5)).map
                  (fun pr => (JObj.cons (String.mk k) v pr.1, pr.2))
              else if d = '\x7d' then some (JObj.cons (String.mk k) v .nil, rest5)
              else none
        | _ => none
    | _ => none
end

/-- `json.Unmarshal` syntax phase: parse one JSON value and require only
whitespace after it.  The fuel `2 * length + 2` dominates the recursion
depth, which consumes at least one character every two steps. -/
def jsonUnmarshal (cs : List Char) : Option Jval :=
  match parseVal (2 * cs.length + 2) cs with
  | some (v, rest) => if skipWs rest = [] then some v else none
  | none => none

/-! ## `json.Unmarshal` target-type conversions -/

/-- Elements of a JSON array unmarshalled into `[]string`: strings are taken
verbatim; a JSON `null` element "has no effect on the value and produces no
error" (Go documentation), leaving the zero value `""`; anything else is a
type error. -/
def stringArrayElems : JArr → Option (List String)
  | .nil => some []
  | .cons (.jstr s) t => (stringArrayElems t).map (fun l => s :: l)
  | .cons .jnull t => (stringArrayElems t).map (fun l => "" :: l)
  | .cons _ _ => none

/-- `json.Unmarshal(data, &s)` for `s : []string`: top-level `null` leaves
the nil slice (length 0); a non-array fails. -/
def toStringArray : Jval → Option (List String)
  | .jnull => some []
  | .jarr xs => stringArrayElems xs
  | _ => none

/-- `json.Unmarshal(data, &m)` for `m : map[string]interface{}`: top-level
`null` leaves the nil map; a non-object fails.  (Object fields were already
assembled with Go map-assignment semantics by the parser.) -/
def toClaimMap : Jval → Option JObj
  | .jnull => some .nil
  | .jobj kvs => some kvs
  | _ => none

def unmarshalStringArray (bytes : List Nat) : Option (List String) :=
  (jsonUnmarshal (bytes.map Char.ofNat)).bind toStringArray

def unmarshalClaimMap (s : String) : Option JObj :=
  (jsonUnmarshal s.data).bind toClaimMap

/-! ## `base64.StdEncoding` -/

def b64Alphabet : List Char :=
  ['A', 'B', 'C', 'D', 'E', 'F', 'G', 'H', 'I', 'J', 'K', 'L', 'M',
   'N', 'O', 'P', 'Q', 'R', 'S', 'T', 'U', 'V', 'W', 'X', 'Y', 'Z',
   'a', 'b', 'c', 'd', 'e', 'f', 'g', 'h', 'i', 'j', 'k', 'l', 'm',
   'n', 'o', 'p', 'q', 'r', 's', 't', 'u', 'v', 'w', 'x', 'y', 'z',
   '0', '1', '2', '3', '4', '5', '6', '7', '8', '9', '+', '/']

def b64idxAux (c : Char) : List Char → Option Nat
  | [] => none
  | a :: t => if a = c then some 0 else (b64idxAux c t).map (fun n => n + 1)

def b64idx (c : Char) : Option Nat := b64idxAux c b64Alphabet

def b64chr (n : Nat) : Char := b64Alphabet.getD n 'A'

/-- Decode whole base64 groups of four characters; `=` padding is accepted
only at the very end.  (Like Go, unused trailing bits are not checked.) -/
def b64decGroups : List Char → Option (List Nat)
  | [] => some []
  | a :: b :: c :: d :: rest =>
    if c = '=' then
      -- a two-character final group `xy==`
      if d = '=' ∧ rest = [] then
        match b64idx a, b64idx b with
        | some w, some x => some [w * 4 + x / 16]
        | _, _ => none
      else none
    else if d = '=' then
      -- a three-character final group `xyz=`
      if rest = [] then
        match b64idx a, b64idx b, b64idx c with
        | some w, some x, some y => some [w * 4 + x / 16, (x % 16) * 16 + y / 4]
        | _, _, _ => none
      else none
    else
      match b64idx a, b64idx b, b64idx c, b64idx d with
      | some w, some x, some y, some z =>
        (b64decGroups rest).map
          (fun bs => (w * 4 + x / 16) :: ((x % 16) * 16 + y / 4) :: ((y % 4) * 64 + z) :: bs)
      | _, _, _, _ => none
  | _ => none

/-- `base64.StdEncoding.DecodeString`: carriage returns and newlines are
ignored, everything else must form valid padded groups of four. -/
def b64decodeStr (s : String) : Option (List Nat) :=
  b64decGroups (s.data.filter (fun c => !(c = '\r' || c = '\n')))

def b64encGroups : List Nat → List Char
  | [] => []
  | [a] => [b64chr (a / 4), b64chr ((a % 4) * 16), '=', '=']
  | [a, b] => [b64chr (a / 4), b64chr ((a % 4) * 16 + b / 16), b64chr ((b % 16) * 4), '=']
  | a :: b :: c :: rest =>
    b64chr (a / 4) :: b64chr ((a % 4) * 16 + b / 16) ::
      b64chr ((b % 16) * 4 + c / 64) :: b64chr (c % 64) :: b64encGroups rest

/-- `base64.StdEncoding.EncodeToString`. -/
def b64encodeStr (bytes : List Nat) : String := String.mk (b64encGroups bytes)

/-! ## `strings.Split(s, ":")` -/

def splitColonAux : List Char → List Char → List String
  | [], acc => [String.mk acc.reverse]
  | c :: t, acc =>
    if c = ':' then String.mk acc.reverse :: splitColonAux t []
    else splitColonAux t (c :: acc)

/-- `strings.Split(s, ":")`: always at least one segment, never nil. -/
def goSplitColon (s : String) : List String := splitColonAux s.data []

/-! ## The `magic` package: constants and error messages

Errors in the Go source are `errors.New`/`fmt.Errorf` values distinguished
only by their message text; they are modelled as the message `String`.
Go runtime panics from failed type assertions (`x.(string)`, `x.(float64)`)
are modelled by a `panicked` outcome carrying a fixed marker message (the
real runtime message also names the dynamic types involved). -/

def ExpectedDIDTokenContentLength : Nat := 2

/-- A grace period time in seconds applied to the `nbf` field for token
validation. -/
def DIDTokenNBFGracePeriod : Int := 300

/-- The seven required claim fields, in canonical order. -/
def RequiredFields : List String := ["iat", "ext", "nbf", "iss", "sub", "aud", "tid"]

def malformedB64Msg : String :=
  "DID token is malformed. It has to be a based64 encoded JSON serialized string"

def twoPartsMsg : String :=
  "DID token is malformed. It has to have two parts [proof, claim]"

def claimJSONMsg : String :=
  "DID token is malformed. Given claim should be a JSON serialized string"

def expiredMsg : String :=
  "Given DID token has expired. Please generate a new one"

def nbfMsg : String :=
  "Given DID token cannot be used at this time. Please check the \x27nbf\x27 field and regenerate a new token with a suitable value"

/-- Go's `fmt` rendering `%s` of a `[]string`. -/
def goFmtStrSlice (xs : List String) : String :=
  "[" ++ String.intercalate " " xs ++ "]"

def missingMsg (missing : List String) : String :=
  "DID token is missing required field(s): \x7b" ++ goFmtStrSlice missing ++ "\x7d"

def malformedIssuerMsg (iss : String) : String :=
  "Given issuer (" ++ iss ++ ") is malformed. Please make sure it follows the `did:method-name:method-specific-id` format"

/-- Marker for a Go runtime panic from a failed interface type assertion. -/
def typeAssertPanicMsg : String := "interface conversion"

/-- Outcome of a Go call: a returned value, a returned error, or a runtime
panic. -/
inductive GoRes (α : Type) : Type where
  | ok (val : α) : GoRes α
  | err (msg : String) : GoRes α
  | panicked (msg : String) : GoRes α
  deriving DecidableEq

def GoRes.isPanic : GoRes α → Bool
  | .panicked _ => true
  | _ => false

/-! ## The error-returning variant (`Token`) -/

/-- `Token` struct holding the `didToken` string, the `proof` and the
`claim` (zero values `""` and nil until written). -/
structure Token where
  didToken : String
  proof : String
  claim : Option JObj

/-- `New` constructs a new token; the `proof` and `claim` fields are left at
their zero values. -/
def New (didToken : String) : Token :=
  { didToken := didToken, proof := "", claim := none }

/-- The fields of `RequiredFields` absent from the claim, in canonical
order. -/
def missingFields (claim : JObj) : List String :=
  RequiredFields.filter (fun field => !(claim.hasKey field))

/-- `checkRequiredFields`: an error listing the missing fields when at least
one required field is absent. -/
def checkRequiredFields (claim : JObj) : Option String :=
  if 0 < (missingFields claim).length then some (missingMsg (missingFields claim))
  else none

/-- `Token.Decode`: base64-decode the raw token, unmarshal the outer
`[proof, claim]` string pair, unmarshal the claim object, then check the
required fields.  The two-element match implements the
`len(jsonDIDToken) != ExpectedDIDTokenContentLength` check. -/
def Token.Decode (t : Token) : GoRes (String × JObj) :=
  match b64decodeStr t.didToken with
  | none => .err malformedB64Msg
  | some decodedDIDToken =>
    match unmarshalStringArray decodedDIDToken with
    | none => .err malformedB64Msg
    | some jsonDIDToken =>
      match jsonDIDToken with
      | [proof, claimStr] =>
        match unmarshalClaimMap claimStr with
        | none => .err claimJSONMsg
        | some claim =>
          match checkRequiredFields claim with
          | some msg => .err msg
          | none => .ok (proof, claim)
      | _ => .err twoPartsMsg

/-- The expression `t.claim["iss"].(string)`: a failed assertion is a
runtime panic. -/
def issuerFromClaim (claim : JObj) : GoRes String :=
  match claim.lookup "iss" with
  | some (.jstr s) => .ok s
  | _ => .panicked typeAssertPanicMsg

/-- `Token.Issuer`: when `t.claim` is nil, decode and store the claim (the
decoded proof is discarded: `_, t.claim, err = t.Decode()`); then return the
`iss` value via an unchecked string assertion.  Returns the possibly
updated token. -/
def Token.Issuer (t : Token) : GoRes String × Token :=
  match t.claim with
  | some c => (issuerFromClaim c, t)
  | none =>
    match t.Decode with
    | .ok (_, c) => (issuerFromClaim c, { t with claim := some c })
    | .err msg => (.err msg, { t with claim := none })
    | .panicked msg => (.panicked msg, t)

/-- `Token.PublicAddress`: split the issuer on `":"` and return the third
segment; fewer than three segments is an error.  (Go's `siss == nil` check
is vacuous: `strings.Split` never returns nil.) -/
def Token.PublicAddress (t : Token) : GoRes String × Token :=
  match t.Issuer with
  | (.ok iss, t') =>
    let siss := goSplitColon iss
    if siss.length < 3 then (.err (malformedIssuerMsg iss), t')
    else (.ok (siss.getD 2 ""), t')
  | other => other

/-- The expression `claim[k].(float64)` as used by `Validate`: any value
that is not a JSON number is a runtime panic (including the nil interface
obtained when the key is absent or the map is nil). -/
def goNumAssert : Option Jval → Option (Int × Int)
  | some (.jnum m e) => some (m, e)
  | _ => none

/-- `int64(f)` for the exact decimal `f = m * 10 ^ e`: truncation toward
zero. -/
def goTrunc (m e : Int) : Int :=
  if 0 ≤ e then m * (10 : Int) ^ e.toNat
  else
    let d : Nat := (10 : Nat) ^ (-e).toNat
    if m < 0 then -((m.natAbs / d : Nat) : Int) else ((m.natAbs / d : Nat) : Int)

/-- `Token.Validate` of the error-returning variant, at wall-clock time
`currentTime` (`time.Now().Unix()`).

Faithful to a slip in the source: after `_, claim, err := t.Decode()` the
very next line `_, err = json.Marshal(claim)` overwrites `err`, so a decode
failure is never returned; `claim` is then the nil map and
`claim["ext"].(float64)` panics.  `json.Marshal` cannot fail on a claim map
produced by `json.Unmarshal` (or on a nil map), so the `if err != nil`
branch is dead; the marshalling itself is modelled by the total serializer
below (its result is unused, as in the source). -/
def Token.Validate (t : Token) (currentTime : Int) : GoRes Unit :=
  let claim : JObj :=
    match t.Decode with
    | .ok (_, c) => c
    | _ => .nil
  match goNumAssert (claim.lookup "ext") with
  | none => .panicked typeAssertPanicMsg
  | some (m, e) =>
    if currentTime > goTrunc m e then .err expiredMsg
    else
      match goNumAssert (claim.lookup "nbf") with
      | none => .panicked typeAssertPanicMsg
      | some (m2, e2) =>
        if currentTime < goTrunc m2 e2 - DIDTokenNBFGracePeriod then .err nbfMsg
        else .ok ()

/-! ## The panic-based variant (`PToken`, from the `DIDToken`-field source
file).  Same pipeline, but every failure is signalled by panicking with a
`*DIDTokenError`; its messages end with a period. -/

structure PToken where
  DIDToken : String

def PNew (DIDToken : String) : PToken := { DIDToken := DIDToken }

/-- Outcome of a call in the panic-based variant: a value or a panic. -/
inductive PRes (α : Type) : Type where
  | ok (val : α) : PRes α
  | panicked (msg : String) : PRes α
  deriving DecidableEq

def pMalformedB64Msg : String := malformedB64Msg ++ "."
def pTwoPartsMsg : String := twoPartsMsg ++ "."
def pClaimJSONMsg : String := claimJSONMsg ++ "."
def pExpiredMsg : String := expiredMsg ++ "."
def pNbfMsg : String := nbfMsg
def pMissingMsg (missing : List String) : String := missingMsg missing ++ "."

/-- `Token.Decode` of the panic-based variant. -/
def PToken.Decode (t : PToken) : PRes (String × JObj) :=
  match b64decodeStr t.DIDToken with
  | none => .panicked pMalformedB64Msg
  | some decodedDIDToken =>
    match unmarshalStringArray decodedDIDToken with
    | none => .panicked pMalformedB64Msg
    | some jsonDIDToken =>
      match jsonDIDToken with
      | [proof, claimStr] =>
        match unmarshalClaimMap claimStr with
        | none => .panicked pClaimJSONMsg
        | some claim =>
          match checkRequiredFields claim with
          | some _ => .panicked (pMissingMsg (missingFields claim))
          | none => .ok (proof, claim)
      | _ => .panicked pTwoPartsMsg

set_option linter.unusedVariables false in
/-- `Token.Validate(DIDToken string)` of the panic-based variant.  The
`DIDToken` parameter appears in the signature but is never read by the
body; the decode works on the stored raw token.  (`json.Marshal(claim)`
cannot fail after a successful decode, so the marshal-error panic is dead
code.) -/
def PToken.Validate (t : PToken) (DIDToken : String) (currentTime : Int) : PRes Unit :=
  match t.Decode with
  | .panicked msg => .panicked msg
  | .ok (_proof, claim) =>
    match goNumAssert (claim.lookup "ext") with
    | none => .panicked typeAssertPanicMsg
    | some (m, e) =>
      if currentTime > goTrunc m e then .panicked pExpiredMsg
      else
        match goNumAssert (claim.lookup "nbf") with
        | none => .panicked typeAssertPanicMsg
        | some (m2, e2) =>
          if currentTime < goTrunc m2 e2 - DIDTokenNBFGracePeriod then .panicked pNbfMsg
          else .ok ()

/-! ## A canonical JSON serializer

Used to build the encoded inputs of the round-trip property (the "standard
base64 encoding of the JSON array `[proof, claimJSON]`").  It emits no
optional whitespace and escapes only `"` and `\`; `SerOk` delimits the
values it renders faithfully: strings of printable ASCII and numbers with
exponent 0 (integers). -/

/-- Decimal digits of a natural number (fuel-indexed to keep the recursion
structural; the fuel `n + 1` always suffices). -/
def natDigitsAux : Nat → Nat → List Char
  | 0, _ => []
  | fuel + 1, n =>
    if n < 10 then [digitChar n]
    else natDigitsAux fuel (n / 10) ++ [digitChar (n % 10)]

def natDigits (n : Nat) : List Char := natDigitsAux (n + 1) n

/-- Serialize an integer mantissa. -/
def serNum (m : Int) : List Char :=
  if m < 0 then '-' :: natDigits m.natAbs else natDigits m.natAbs

def escChar (c : Char) : List Char :=
  if c = '"' then ['\\', '"']
  else if c = '\\' then ['\\', '\\']
  else [c]

def serStrBody : List Char → List Char
  | [] => []
  | c :: t => escChar c ++ serStrBody t

/-- Serialize a string literal with its quotes. -/
def serStr (s : String) : List Char := '"' :: serStrBody s.data ++ ['"']

mutual
def serVal : Jval → List Char
  | .jnull => ['n', 'u', 'l', 'l']
  | .jbool true => ['t', 'r', 'u', 'e']
  | .jbool false => ['f', 'a', 'l', 's', 'e']
  | .jnum m _ => serNum m
  | .jstr s => serStr s
  | .jarr .nil => ['[', ']']
  | .jarr (.cons x xs) => '[' :: serVal x ++ serItems xs ++ [']']
  | .jobj .nil => ['\x7b', '\x7d']
  | .jobj (.cons k v t) => '\x7b' :: serStr k ++ ':' :: serVal v ++ serPairs t ++ ['\x7d']

def serItems : JArr → List Char
  | .nil => []
  | .cons x xs => ',' :: serVal x ++ serItems xs

def serPairs : JObj → List Char
  | .nil => []
  | .cons k v t => ',' :: serStr k ++ ':' :: serVal v ++ serPairs t
end

/-- Printable ASCII (no control characters, single byte in UTF-8). -/
def okChar (c : Char) : Bool := 32 ≤ c.toNat && c.toNat < 128

def okChars (l : List Char) : Bool := l.all okChar

mutual
/-- The serializer renders `v` faithfully: strings are printable ASCII,
numbers are integers (exponent 0), object keys are distinct. -/
def serOkVal : Jval → Bool
  | .jnull => true
  | .jbool _ => true
  | .jnum _ e => e == 0
  | .jstr s => okChars s.data
  | .jarr xs => serOkArr xs
  | .jobj kvs => serOkObj kvs

def serOkArr : JArr → Bool
  | .nil => true
  | .cons x xs => serOkVal x && serOkArr xs

def serOkObj : JObj → Bool
  | .nil => true
  | .cons k v t => okChars k.data && serOkVal v && !(JObj.hasKey t k) && serOkObj t
end

/-- The raw token string for proof `proof` and claim object `claim`: the
standard base64 encoding of the JSON array `[proof, claimJSON]` where
`claimJSON` is the claim object serialized to a JSON string. -/
def encodeToken (proof : String) (claim : JObj) : String :=
  let claimJSON : String := String.mk (serVal (.jobj claim))
  b64encodeStr ((serVal (.jarr (.cons (.jstr proof) (.cons (.jstr claimJSON) .nil)))).map Char.toNat)

/-! ## Round-trip lemmas: digits and numbers -/

theorem charEq_of_toNat {c d : Char} (h : c.toNat = d.toNat) : c = d :=
  Char.ext (UInt32.ext h)

theorem digitChar_isDigit {d : Nat} (h : d < 10) : isDigitChar (digitChar d) = true := by
  interval_cases d <;> decide

theorem digitVal_digitChar {d : Nat} (h : d < 10) : digitVal (digitChar d) = d := by
  interval_cases d <;> decide

theorem digitChar_not_ws {d : Nat} (h : d < 10) : isJsonWs (digitChar d) = false := by
  interval_cases d <;> decide

theorem digitChar_ok {d : Nat} (h : d < 10) : okChar (digitChar d) = true := by
  interval_cases d <;> decide

theorem digitsToNat_append (l : List Char) (c : Char) :
    digitsToNat (l ++ [c]) = 10 * digitsToNat l + digitVal c := by
  simp [digitsToNat, List.foldl_append]
  omega

/-- Characterization of `natDigitsAux` under sufficient fuel: the digit list
is nonempty, consists of digit characters, evaluates back to `n`, and has a
nonzero head when `n` is nonzero. -/
theorem natDigitsAux_spec (fuel : Nat) :
    ∀ n, n < fuel →
      ∃ d t, natDigitsAux fuel n = digitChar d :: t ∧ d < 10 ∧ (0 < n → 0 < d) ∧
        (∀ c ∈ natDigitsAux fuel n, isDigitChar c = true) ∧
        digitsToNat (natDigitsAux fuel n) = n := by
  induction fuel with
  | zero => intro n h; omega
  | succ fuel ih =>
    intro n h
    by_cases h10 : n < 10
    · refine ⟨n, [], ?_, h10, ?_, ?_, ?_⟩
      · simp [natDigitsAux, h10]
      · intro; omega
      · simp [natDigitsAux, h10]
        exact digitChar_isDigit h10
      · simp [natDigitsAux, h10, digitsToNat]
        rw [show (digitVal (digitChar n)) = n from digitVal_digitChar h10]
    · have hdiv : n / 10 < fuel := by omega
      obtain ⟨d, t, heq, hd10, hdpos, hall, hval⟩ := ih (n / 10) hdiv
      refine ⟨d, t ++ [digitChar (n % 10)], ?_, hd10, ?_, ?_, ?_⟩
      · simp [natDigitsAux, h10, heq]
      · intro
        exact hdpos (by omega)
      · simp only [natDigitsAux, h10, if_false, ite_false]
        intro c hc
        rcases List.mem_append.mp hc with hc1 | hc2
        · exact hall c hc1
        · rcases List.mem_singleton.mp hc2 with rfl
          exact digitChar_isDigit (by omega)
      · simp only [natDigitsAux, h10, ite_false]
        rw [digitsToNat_append, hval, digitVal_digitChar (by omega)]
        omega

theorem natDigits_spec (n : Nat) :
    ∃ d t, natDigits n = digitChar d :: t ∧ d < 10 ∧ (0 < n → 0 < d) ∧
      (∀ c ∈ natDigits n, isDigitChar c = true) ∧
      digitsToNat (natDigits n) = n :=
  natDigitsAux_spec (n + 1) n (Nat.lt_succ_self n)

theorem takeWhile_append_all {p : Char → Bool} :
    ∀ (l r : List Char), (∀ c ∈ l, p c = true) →
      (l ++ r).takeWhile p = l ++ r.takeWhile p := by
  intro l r h
  induction l with
  | nil => simp
  | cons c t ih =>
    simp only [List.cons_append, List.takeWhile_cons]
    rw [h c (by simp)]
    simp only [if_true, ite_true, List.cons.injEq, true_and]
    exact ih (fun x hx => h x (by simp [hx]))

theorem dropWhile_append_all {p : Char → Bool} :
    ∀ (l r : List Char), (∀ c ∈ l, p c = true) →
      (l ++ r).dropWhile p = r.dropWhile p := by
  intro l r h
  induction l with
  | nil => simp
  | cons c t ih =>
    simp only [List.cons_append, List.dropWhile_cons]
    rw [h c (by simp)]
    simp only [if_true, ite_true]
    exact ih (fun x hx => h x (by simp [hx]))

/-- Characters that may legitimately follow a serialized number: end of
input, or a character that does not extend the number grammar. -/
def numBoundary : List Char → Bool
  | [] => true
  | c :: _ => !(isDigitChar c || c = '.' || c = 'e' || c = 'E')

theorem takeWhile_numBoundary {r : List Char} (h : numBoundary r = true) :
    r.takeWhile isDigitChar = [] := by
  cases r with
  | nil => rfl
  | cons c t =>
    simp [numBoundary] at h
    simp [List.takeWhile_cons, h.1]

theorem dropWhile_numBoundary {r : List Char} (h : numBoundary r = true) :
    r.dropWhile isDigitChar = r := by
  cases r with
  | nil => rfl
  | cons c t =>
    simp [numBoundary] at h
    simp [List.dropWhile_cons, h.1]

theorem digitChar_ne_zero {d : Nat} (h0 : 0 < d) (h : d < 10) : digitChar d ≠ '0' := by
  interval_cases d <;> decide

theorem parseIntDigits_natDigits (n : Nat) (r : List Char) (h : numBoundary r = true) :
    parseIntDigits (natDigits n ++ r) = some (natDigits n, r) := by
  obtain ⟨d, t, heq, hd10, hdpos, hall, _⟩ := natDigits_spec n
  by_cases hn : n = 0
  · subst hn
    have h0 : natDigits 0 = ['0'] := by decide
    rw [h0]
    simp [parseIntDigits]
  · have hdp : 0 < d := hdpos (Nat.pos_of_ne_zero hn)
    have htail : ∀ c ∈ t, isDigitChar c = true := by
      intro c hc
      exact hall c (heq ▸ List.mem_cons_of_mem _ hc)
    rw [heq]
    simp only [List.cons_append, parseIntDigits, digitChar_ne_zero hdp hd10,
      if_false, digitChar_isDigit hd10, if_true, ite_false, ite_true]
    rw [takeWhile_append_all t r htail, takeWhile_numBoundary h,
      dropWhile_append_all t r htail, dropWhile_numBoundary h]
    simp

theorem parseFrac_boundary (r : List Char) (h : numBoundary r = true) :
    parseFrac r = some ([], r) := by
  cases r with
  | nil => rfl
  | cons c t =>
    simp [numBoundary] at h
    obtain ⟨⟨⟨h1, h2⟩, h3⟩, h4⟩ := h
    simp [parseFrac, h2]

theorem parseExp_boundary (r : List Char) (h : numBoundary r = true) :
    parseExp r = some (0, r) := by
  cases r with
  | nil => rfl
  | cons c t =>
    simp [numBoundary] at h
    obtain ⟨⟨⟨h1, h2⟩, h3⟩, h4⟩ := h
    simp [parseExp, h3, h4]

theorem parseNumMag_natDigits (n : Nat) (r : List Char) (h : numBoundary r = true) :
    parseNumMag (natDigits n ++ r) = some ((n, 0), r) := by
  obtain ⟨_, _, _, _, _, _, hval⟩ := natDigits_spec n
  simp only [parseNumMag, parseIntDigits_natDigits n r h, parseFrac_boundary r h,
    parseExp_boundary r h, List.append_nil, hval]
  rfl

theorem digitChar_ne_dash {d : Nat} (h : d < 10) : digitChar d ≠ '-' := by
  interval_cases d <;> decide

/-- A serialized integer parses back exactly, leaving the boundary intact. -/
theorem parseNumber_serNum (m : Int) (r : List Char) (h : numBoundary r = true) :
    parseNumber (serNum m ++ r) = some ((m, 0), r) := by
  obtain ⟨d, t, heq, hd10, _, _, _⟩ := natDigits_spec m.natAbs
  by_cases hm : m < 0
  · simp only [serNum, hm, if_true, ite_true, List.cons_append, parseNumber]
    rw [parseNumMag_natDigits m.natAbs r h]
    simp
    rw [abs_of_neg hm, neg_neg]
  · simp only [serNum, hm, if_false, ite_false]
    have hhead : natDigits m.natAbs ++ r = digitChar d :: (t ++ r) := by
      rw [heq]
      rfl
    rw [hhead, parseNumber, if_neg (digitChar_ne_dash hd10), ← hhead,
      parseNumMag_natDigits m.natAbs r h]
    simp
    omega

/-! ## Round-trip lemmas: strings, whitespace, and value heads -/

theorem skipWs_not_ws {c : Char} (l : List Char) (h : isJsonWs c = false) :
    skipWs (c :: l) = c :: l := by
  simp [skipWs, h]

/-- An escaped string body parses back exactly up to the closing quote. -/
theorem parseStrAux_serStrBody :
    ∀ (s : List Char) (rest : List Char), okChars s = true →
      parseStrAux (serStrBody s ++ '"' :: rest) = some (s, rest) := by
  intro s
  induction s with
  | nil =>
    intro rest _
    simp only [serStrBody, List.nil_append]
    rw [parseStrAux.eq_def]
    simp
  | cons c t ih =>
    intro rest hok
    simp only [okChars, List.all_cons, Bool.and_eq_true] at hok
    obtain ⟨hc, ht⟩ := hok
    by_cases hq : c = '"'
    · subst hq
      simp only [serStrBody, escChar, if_pos rfl, List.cons_append, List.append_assoc]
      rw [parseStrAux.eq_def]
      simp [escUnchar, ih rest ht]
    · by_cases hb : c = '\\'
      · subst hb
        simp only [serStrBody, escChar, if_neg (by decide : ¬('\\' : Char) = '"'),
          if_pos rfl, List.cons_append, List.append_assoc]
        rw [parseStrAux.eq_def]
        simp [escUnchar, ih rest ht]
      · have h32 : ¬(c.toNat < 32) := by
          simp [okChar] at hc
          omega
        simp only [serStrBody, escChar, if_neg hq, if_neg hb, List.cons_append,
          List.nil_append]
        rw [parseStrAux.eq_def]
        simp [hq, hb, h32, ih rest ht]

theorem digitChar_head_facts {d : Nat} (h : d < 10) :
    isJsonWs (digitChar d) = false ∧ digitChar d ≠ ']' ∧ digitChar d ≠ '\x7d' ∧
      digitChar d ≠ ',' ∧ digitChar d ≠ ':' := by
  interval_cases d <;> exact (by decide)

/-- Every serialized value starts with a non-whitespace character that is
not a structural delimiter. -/
theorem serVal_head (v : Jval) :
    ∃ c t, serVal v = c :: t ∧ isJsonWs c = false ∧
      c ≠ ']' ∧ c ≠ '\x7d' ∧ c ≠ ',' ∧ c ≠ ':' := by
  cases v with
  | jnull => exact ⟨'n', ['u', 'l', 'l'], rfl, by decide, by decide, by decide, by decide, by decide⟩
  | jbool b =>
    cases b with
    | true => exact ⟨'t', ['r', 'u', 'e'], rfl, by decide, by decide, by decide, by decide, by decide⟩
    | false => exact ⟨'f', ['a', 'l', 's', 'e'], rfl, by decide, by decide, by decide, by decide, by decide⟩
  | jnum m e =>
    by_cases hm : m < 0
    · exact ⟨'-', natDigits m.natAbs, by simp [serVal, serNum, hm], by decide, by decide,
        by decide, by decide, by decide⟩
    · obtain ⟨d, t, heq, hd10, _, _, _⟩ := natDigits_spec m.natAbs
      obtain ⟨f1, f2, f3, f4, f5⟩ := digitChar_head_facts hd10
      exact ⟨digitChar d, t, by simp [serVal, serNum, hm, heq], f1, f2, f3, f4, f5⟩
  | jstr s =>
    exact ⟨'"', serStrBody s.data ++ ['"'], rfl, by decide, by decide, by decide,
      by decide, by decide⟩
  | jarr xs =>
    cases xs with
    | nil => exact ⟨'[', [']'], rfl, by decide, by decide, by decide, by decide, by decide⟩
    | cons x xs' =>
      exact ⟨'[', serVal x ++ serItems xs' ++ [']'], rfl, by decide, by decide, by decide,
        by decide, by decide⟩
  | jobj kvs =>
    cases kvs with
    | nil => exact ⟨'\x7b', ['\x7d'], rfl, by decide, by decide, by decide, by decide, by decide⟩
    | cons k v' t =>
      exact ⟨'\x7b', serStr k ++ ':' :: serVal v' ++ serPairs t ++ ['\x7d'], rfl,
        by decide, by decide, by decide, by decide, by decide⟩

theorem skipWs_serVal (v : Jval) (r : List Char) :
    skipWs (serVal v ++ r) = serVal v ++ r := by
  obtain ⟨c, t, heq, hws, _, _, _, _⟩ := serVal_head v
  rw [heq, List.cons_append, skipWs_not_ws _ hws]

theorem stringMk_data (s : String) : String.mk s.data = s := by
  cases s
  rfl

/-- When the head is a digit or a minus sign, `parseVal` dispatches to the
number production. -/
theorem parseVal_number_head (fuel : Nat) (c : Char) (cs : List Char)
    (hws : isJsonWs c = false)
    (hd : isDigitChar c = true ∨ c = '-') :
    parseVal (fuel + 1) (c :: cs) =
      (parseNumber (c :: cs)).map (fun pr => (Jval.jnum pr.1.1 pr.1.2, pr.2)) := by
  have hne : ∀ (x : Char), (48 ≤ x.toNat ∧ x.toNat ≤ 57 → False) → (x = '-' → False) → c ≠ x := by
    intro x hx hxd hc
    subst hc
    rcases hd with h | h
    · simp [isDigitChar] at h
      exact hx h
    · exact hxd h
  rw [parseVal.eq_2, skipWs_not_ws _ hws]
  simp only [if_neg (hne '\x7b' (by decide) (by decide)),
    if_neg (hne '[' (by decide) (by decide)),
    if_neg (hne '"' (by decide) (by decide)),
    if_neg (hne 't' (by decide) (by decide)),
    if_neg (hne 'f' (by decide) (by decide)),
    if_neg (hne 'n' (by decide) (by decide))]

/-! ## Go map assembly is the identity on objects with distinct keys -/

theorem JObj.append_nil : ∀ (a : JObj), a.append .nil = a
  | .nil => rfl
  | .cons k v t => by rw [JObj.append, JObj.append_nil t]

theorem JObj.hasKey_append : ∀ (a b : JObj) (s : String),
    (a.append b).hasKey s = (a.hasKey s || b.hasKey s)
  | .nil, b, s => by simp [JObj.append, JObj.hasKey]
  | .cons k v t, b, s => by
    simp [JObj.append, JObj.hasKey, JObj.hasKey_append t b s, Bool.or_assoc]

theorem JObj.assign_fresh : ∀ (a : JObj) (k : String) (v : Jval),
    a.hasKey k = false → a.assign k v = a.append (.cons k v .nil)
  | .nil, k, v, _ => rfl
  | .cons k' v' t, k, v, h => by
    simp [JObj.hasKey] at h
    rw [JObj.assign, if_neg (by simpa using h.1), JObj.append,
      JObj.assign_fresh t k v h.2]

theorem JObj.append_assoc : ∀ (a b c : JObj),
    (a.append b).append c = a.append (b.append c)
  | .nil, b, c => rfl
  | .cons k v t, b, c => by simp [JObj.append, JObj.append_assoc t b c]

theorem goMapOfAux_disjoint :
    ∀ (kvs acc : JObj), serOkObj kvs = true →
      (∀ s, kvs.hasKey s = true → acc.hasKey s = false) →
      goMapOfAux acc kvs = acc.append kvs
  | .nil, acc, _, _ => by rw [goMapOfAux, JObj.append_nil]
  | .cons k v t, acc, hok, hdisj => by
    simp only [serOkObj, Bool.and_eq_true] at hok
    obtain ⟨⟨⟨hk, hv⟩, hfresh⟩, ht⟩ := hok
    have hacc : acc.hasKey k = false := hdisj k (by simp [JObj.hasKey])
    have hdisj2 : ∀ s, t.hasKey s = true →
        (acc.append (JObj.cons k v JObj.nil)).hasKey s = false := by
      intro s hs
      rw [JObj.hasKey_append]
      have h1 : acc.hasKey s = false := hdisj s (by simp [JObj.hasKey, hs])
      have h2 : (JObj.cons k v JObj.nil).hasKey s = false := by
        simp only [JObj.hasKey, Bool.or_false]
        by_cases hks : k = s
        · subst hks
          rw [hs] at hfresh
          simp at hfresh
        · simp [hks]
      rw [h1, h2]
      rfl
    rw [goMapOfAux, JObj.assign_fresh acc k v hacc,
      goMapOfAux_disjoint t _ ht hdisj2, JObj.append_assoc]
    rfl

/-- Assembling a JSON object with distinct keys through Go map assignment
keeps it unchanged. -/
theorem goMapOf_serOk (kvs : JObj) (h : serOkObj kvs = true) : goMapOf kvs = kvs := by
  rw [goMapOf, goMapOfAux_disjoint kvs .nil h (fun s _ => rfl)]
  rfl

theorem serVal_length_pos (v : Jval) : 0 < (serVal v).length := by
  obtain ⟨c, t, heq, _⟩ := serVal_head v
  rw [heq]
  simp

/-- `parseVal` dispatch on a leading `[`. -/
theorem parseVal_lbracket (fuel : Nat) (cs : List Char) :
    parseVal (fuel + 1) ('[' :: cs) =
      (match skipWs cs with
       | [] => none
       | d :: rest2 =>
         if d = ']' then some (.jarr .nil, rest2)
         else (parseArrItems fuel (d :: rest2)).map (fun pr => (Jval.jarr pr.1, pr.2))) := rfl

/-- `parseVal` dispatch on a leading `{`. -/
theorem parseVal_lbrace (fuel : Nat) (cs : List Char) :
    parseVal (fuel + 1) ('\x7b' :: cs) =
      (match skipWs cs with
       | [] => none
       | d :: rest2 =>
         if d = '\x7d' then some (.jobj .nil, rest2)
         else (parseObjItems fuel (d :: rest2)).map
           (fun pr => (Jval.jobj (goMapOf pr.1), pr.2))) := rfl

theorem skipWs_serStr (k : String) (r : List Char) :
    skipWs (serStr k ++ r) = serStr k ++ r := by
  simp only [serStr, List.cons_append]
  exact skipWs_not_ws _ (by decide)

/-! ## The parser–serializer round trip -/

/-- Parsing a serialized value (with a non-number-extending boundary behind
it) recovers the value exactly, simultaneously for values, array items and
object members; the fuel must dominate twice the serialized length. -/
theorem parse_ser_roundtrip :
    ∀ fuel : Nat,
      (∀ (v : Jval) (r : List Char), serOkVal v = true → numBoundary r = true →
        2 * (serVal v).length ≤ fuel →
        parseVal fuel (serVal v ++ r) = some (v, r)) ∧
      (∀ (x : Jval) (xs : JArr) (r : List Char), serOkVal x = true → serOkArr xs = true →
        2 * ((serVal x).length + (serItems xs).length + 1) ≤ fuel →
        parseArrItems fuel (serVal x ++ serItems xs ++ ']' :: r) = some (.cons x xs, r)) ∧
      (∀ (k : String) (v : Jval) (kvs : JObj) (r : List Char),
        okChars k.data = true → serOkVal v = true → serOkObj kvs = true →
        2 * ((serStr k).length + (serVal v).length + (serPairs kvs).length + 2) ≤ fuel →
        parseObjItems fuel (serStr k ++ ':' :: serVal v ++ serPairs kvs ++ '\x7d' :: r) =
          some (.cons k v kvs, r)) := by
  intro fuel
  induction fuel with
  | zero =>
    refine ⟨?_, ?_, ?_⟩
    · intro v r _ _ hfuel
      have := serVal_length_pos v
      omega
    · intro x xs r _ _ hfuel
      omega
    · intro k v kvs r _ _ _ hfuel
      omega
  | succ fuel ih =>
    obtain ⟨ihA, ihB, ihC⟩ := ih
    refine ⟨?_, ?_, ?_⟩
    · -- parseVal on a serialized value
      intro v r hok hb hfuel
      cases v with
      | jnull =>
        show parseVal (fuel + 1) (['n', 'u', 'l', 'l'] ++ r) = some (.jnull, r)
        simp only [List.cons_append, List.nil_append]
        rw [parseVal.eq_2, skipWs_not_ws _ (by decide)]
        simp
      | jbool b =>
        cases b with
        | true =>
          show parseVal (fuel + 1) (['t', 'r', 'u', 'e'] ++ r) = some (.jbool true, r)
          simp only [List.cons_append, List.nil_append]
          rw [parseVal.eq_2, skipWs_not_ws _ (by decide)]
          simp
        | false =>
          show parseVal (fuel + 1) (['f', 'a', 'l', 's', 'e'] ++ r) = some (.jbool false, r)
          simp only [List.cons_append, List.nil_append]
          rw [parseVal.eq_2, skipWs_not_ws _ (by decide)]
          simp
      | jnum m e =>
        have he : e = 0 := by
          simpa [serOkVal] using hok
        subst he
        show parseVal (fuel + 1) (serNum m ++ r) = some (.jnum m 0, r)
        by_cases hm : m < 0
        · have hsh : serNum m ++ r = '-' :: (natDigits m.natAbs ++ r) := by
            simp [serNum, hm]
          rw [hsh, parseVal_number_head fuel '-' _ (by decide) (Or.inr rfl), ← hsh,
            parseNumber_serNum m r hb]
          rfl
        · obtain ⟨d, t, heq, hd10, _, _, _⟩ := natDigits_spec m.natAbs
          have hsh : serNum m ++ r = digitChar d :: (t ++ r) := by
            simp [serNum, hm, heq]
          rw [hsh, parseVal_number_head fuel _ _ (digitChar_not_ws hd10)
            (Or.inl (digitChar_isDigit hd10)), ← hsh, parseNumber_serNum m r hb]
          rfl
      | jstr s =>
        have hok' : okChars s.data = true := by simpa [serOkVal] using hok
        show parseVal (fuel + 1) (serStr s ++ r) = some (.jstr s, r)
        simp only [serStr, List.cons_append, List.append_assoc, List.singleton_append]
        rw [parseVal.eq_2, skipWs_not_ws _ (by decide)]
        simp [parseStrAux_serStrBody s.data r hok', stringMk_data]
      | jarr xs =>
        cases xs with
        | nil =>
          show parseVal (fuel + 1) (['[', ']'] ++ r) = some (.jarr .nil, r)
          simp only [List.cons_append, List.nil_append]
          rw [parseVal_lbracket, skipWs_not_ws _ (by decide)]
          simp
        | cons x xs' =>
          have hfacts : serOkVal x = true ∧ serOkArr xs' = true := by
            simpa [serOkVal, serOkArr] using hok
          have hL : (serVal (Jval.jarr (JArr.cons x xs'))).length =
              (serVal x).length + (serItems xs').length + 2 := by
            show ('[' :: (serVal x ++ serItems xs' ++ [']'])).length = _
            simp
            omega
          show parseVal (fuel + 1) (('[' :: (serVal x ++ serItems xs' ++ [']'])) ++ r) =
            some (.jarr (.cons x xs'), r)
          simp only [List.cons_append, List.append_assoc, List.singleton_append, List.nil_append]
          rw [parseVal_lbracket, skipWs_serVal x _]
          obtain ⟨c', t', heq', hws', hne1, hne2, hne3, hne4⟩ := serVal_head x
          rw [heq', List.cons_append]
          simp only []
          rw [if_neg hne1, ← List.cons_append, ← heq',
            show serVal x ++ (serItems xs' ++ ']' :: r) =
              serVal x ++ serItems xs' ++ ']' :: r from (List.append_assoc _ _ _).symm,
            ihB x xs' r hfacts.1 hfacts.2 (by rw [hL] at hfuel; omega)]
          rfl
      | jobj kvs =>
        cases kvs with
        | nil =>
          show parseVal (fuel + 1) (['\x7b', '\x7d'] ++ r) = some (.jobj .nil, r)
          simp only [List.cons_append, List.nil_append]
          rw [parseVal_lbrace, skipWs_not_ws _ (by decide)]
          simp
        | cons k v' t =>
          have hfacts : okChars k.data = true ∧ serOkVal v' = true ∧
              serOkObj t = true := by
            have h2 := hok
            simp only [serOkVal, serOkObj, Bool.and_eq_true] at h2
            exact ⟨h2.1.1.1, h2.1.1.2, h2.2⟩
          have hoknodup : serOkObj (JObj.cons k v' t) = true := by
            simpa [serOkVal] using hok
          have hL : (serVal (Jval.jobj (JObj.cons k v' t))).length =
              (serStr k).length + (serVal v').length + (serPairs t).length + 3 := by
            show ('\x7b' :: (serStr k ++ ':' :: serVal v' ++ serPairs t ++ ['\x7d'])).length = _
            simp
            omega
          show parseVal (fuel + 1)
              (('\x7b' :: (serStr k ++ ':' :: serVal v' ++ serPairs t ++ ['\x7d'])) ++ r) =
            some (.jobj (.cons k v' t), r)
          simp only [List.cons_append, List.append_assoc, List.singleton_append, List.nil_append]
          rw [parseVal_lbrace, skipWs_serStr k _]
          have hexp : serStr k ++ ':' :: (serVal v' ++ (serPairs t ++ '\x7d' :: r)) =
              '"' :: (serStrBody k.data ++
                ('"' :: (':' :: (serVal v' ++ (serPairs t ++ '\x7d' :: r))))) := by
            simp [serStr]
          rw [hexp]
          simp only []
          rw [if_neg (by decide : ¬('"' : Char) = '\x7d'), ← hexp,
            show serStr k ++ ':' :: (serVal v' ++ (serPairs t ++ '\x7d' :: r)) =
              serStr k ++ ':' :: serVal v' ++ serPairs t ++ '\x7d' :: r from by
              simp [List.append_assoc],
            ihC k v' t r hfacts.1 hfacts.2.1 hfacts.2.2 (by rw [hL] at hfuel; omega)]
          simp only [Option.map_some']
          rw [goMapOf_serOk _ hoknodup]
    · -- parseArrItems on serialized items
      intro x xs r hokx hokxs hfuel
      have hbnd : numBoundary (serItems xs ++ ']' :: r) = true := by
        cases xs <;> rfl
      rw [parseArrItems.eq_2, List.append_assoc,
        ihA x (serItems xs ++ ']' :: r) hokx hbnd (by omega)]
      simp only []
      cases xs with
      | nil =>
        show (match skipWs ([] ++ ']' :: r) with
          | [] => none
          | d :: rest2 =>
            if d = ',' then (parseArrItems fuel rest2).map (fun pr => (JArr.cons x pr.1, pr.2))
            else if d = ']' then some (JArr.cons x .nil, rest2)
            else none) = some (JArr.cons x .nil, r)
        simp only [List.nil_append]
        rw [skipWs_not_ws _ (by decide)]
        simp
      | cons y ys =>
        have hfacts : serOkVal y = true ∧ serOkArr ys = true := by
          simpa [serOkArr] using hokxs
        show (match skipWs ((',' :: (serVal y ++ serItems ys)) ++ ']' :: r) with
          | [] => none
          | d :: rest2 =>
            if d = ',' then (parseArrItems fuel rest2).map (fun pr => (JArr.cons x pr.1, pr.2))
            else if d = ']' then some (JArr.cons x .nil, rest2)
            else none) = some (JArr.cons x (JArr.cons y ys), r)
        simp only [List.cons_append]
        rw [skipWs_not_ws _ (by decide)]
        simp only []
        rw [if_pos trivial]
        have hLs : (serItems (JArr.cons y ys)).length =
            (serVal y).length + (serItems ys).length + 1 := by
          show (',' :: (serVal y ++ serItems ys)).length = _
          simp
        rw [ihB y ys r hfacts.1 hfacts.2 (by rw [hLs] at hfuel; omega)]
        rfl
    · -- parseObjItems on serialized members
      intro k v kvs r hokk hokv hokkvs hfuel
      have hexp : serStr k ++ ':' :: serVal v ++ serPairs kvs ++ '\x7d' :: r =
          '"' :: (serStrBody k.data ++
            '"' :: (':' :: (serVal v ++ (serPairs kvs ++ '\x7d' :: r)))) := by
        simp [serStr]
      rw [hexp, parseObjItems.eq_2]
      have hbnd : numBoundary (serPairs kvs ++ '\x7d' :: r) = true := by
        cases kvs <;> rfl
      rw [parseStrAux_serStrBody k.data _ hokk]
      simp only []
      rw [skipWs_not_ws _ (by decide)]
      simp only []
      rw [ihA v (serPairs kvs ++ '\x7d' :: r) hokv hbnd (by omega)]
      simp only []
      cases kvs with
      | nil =>
        show (match skipWs ([] ++ '\x7d' :: r) with
          | [] => none
          | d :: rest5 =>
            if d = ',' then
              (parseObjItems fuel (skipWs rest5)).map
                (fun pr => (JObj.cons (String.mk k.data) v pr.1, pr.2))
            else if d = '\x7d' then some (JObj.cons (String.mk k.data) v .nil, rest5)
            else none) = some (JObj.cons k v .nil, r)
        simp only [List.nil_append]
        rw [skipWs_not_ws _ (by decide)]
        simp [stringMk_data]
      | cons k2 v2 t2 =>
        have hfacts : okChars k2.data = true ∧ serOkVal v2 = true ∧ serOkObj t2 = true := by
          simp only [serOkObj, Bool.and_eq_true] at hokkvs
          exact ⟨hokkvs.1.1.1, hokkvs.1.1.2, hokkvs.2⟩
        show (match skipWs ((',' :: (serStr k2 ++ ':' :: serVal v2 ++ serPairs t2)) ++ '\x7d' :: r) with
          | [] => none
          | d :: rest5 =>
            if d = ',' then
              (parseObjItems fuel (skipWs rest5)).map
                (fun pr => (JObj.cons (String.mk k.data) v pr.1, pr.2))
            else if d = '\x7d' then some (JObj.cons (String.mk k.data) v .nil, rest5)
            else none) = some (JObj.cons k v (JObj.cons k2 v2 t2), r)
        simp only [List.cons_append]
        rw [skipWs_not_ws _ (by decide)]
        simp only []
        rw [if_pos trivial]
        have hLp : (serPairs (JObj.cons k2 v2 t2)).length =
            (serStr k2).length + (serVal v2).length + (serPairs t2).length + 2 := by
          show (',' :: (serStr k2 ++ ':' :: serVal v2 ++ serPairs t2)).length = _
          simp
          omega
        rw [show skipWs (serStr k2 ++ ':' :: serVal v2 ++ serPairs t2 ++ '\x7d' :: r) =
            serStr k2 ++ ':' :: serVal v2 ++ serPairs t2 ++ '\x7d' :: r from by
          simp only [List.append_assoc]
          exact skipWs_serStr k2 _]
        rw [ihC k2 v2 t2 r hfacts.1 hfacts.2.1 hfacts.2.2 (by rw [hLp] at hfuel; omega)]
        simp [stringMk_data]

/-- `json.Unmarshal` syntax phase on a serialized value yields the value. -/
theorem jsonUnmarshal_serVal (v : Jval) (hok : serOkVal v = true) :
    jsonUnmarshal (serVal v) = some v := by
  rw [jsonUnmarshal]
  have h := (parse_ser_roundtrip (2 * (serVal v).length + 2)).1 v [] hok rfl (by omega)
  rw [List.append_nil] at h
  rw [h]
  rfl

theorem okChar_of_digit {c : Char} (h : isDigitChar c = true) : okChar c = true := by
  simp [isDigitChar] at h
  simp [okChar]
  omega

theorem serNum_chars (m : Int) : ∀ c ∈ serNum m, okChar c = true := by
  intro c hc
  obtain ⟨_, _, _, _, _, hall, _⟩ := natDigits_spec m.natAbs
  by_cases hm : m < 0
  · simp only [serNum, hm, if_true, ite_true] at hc
    rcases List.mem_cons.mp hc with rfl | hc2
    · decide
    · exact okChar_of_digit (hall c hc2)
  · simp only [serNum, hm, if_false, ite_false] at hc
    exact okChar_of_digit (hall c hc)

theorem serStrBody_chars : ∀ (l : List Char), okChars l = true →
    ∀ c ∈ serStrBody l, okChar c = true := by
  intro l
  induction l with
  | nil =>
    intro _ c hc
    simp [serStrBody] at hc
  | cons a t ih =>
    intro hok c hc
    simp only [okChars, List.all_cons, Bool.and_eq_true] at hok
    simp only [serStrBody, List.mem_append] at hc
    rcases hc with hc1 | hc2
    · by_cases hq : a = '"'
      · subst hq
        simp [escChar] at hc1
        rcases hc1 with rfl | rfl <;> decide
      · by_cases hb : a = '\\'
        · subst hb
          simp [escChar] at hc1
          rcases hc1 with rfl | rfl <;> decide
        · simp [escChar, hq, hb] at hc1
          subst hc1
          exact hok.1
    · exact ih hok.2 c hc2

theorem serStr_chars (s : String) (h : okChars s.data = true) :
    ∀ c ∈ serStr s, okChar c = true := by
  intro c hc
  simp only [serStr, List.mem_cons, List.mem_append, List.mem_singleton] at hc
  rcases hc with (rfl | hc1) | rfl | h0
  · decide
  · exact serStrBody_chars s.data h c hc1
  · decide
  · cases h0

mutual
/-- Every character emitted by the serializer on a `SerOk` value is
printable ASCII. -/
theorem serVal_chars : ∀ (v : Jval), serOkVal v = true → ∀ c ∈ serVal v, okChar c = true
  | .jnull, _, c, hc => by
    simp [serVal] at hc
    rcases hc with rfl | rfl | rfl | rfl <;> decide
  | .jbool true, _, c, hc => by
    simp [serVal] at hc
    rcases hc with rfl | rfl | rfl | rfl <;> decide
  | .jbool false, _, c, hc => by
    simp [serVal] at hc
    rcases hc with rfl | rfl | rfl | rfl | rfl <;> decide
  | .jnum m e, _, c, hc => by
    exact serNum_chars m c (by simpa [serVal] using hc)
  | .jstr s, hok, c, hc => by
    exact serStr_chars s (by simpa [serOkVal] using hok) c (by simpa [serVal] using hc)
  | .jarr .nil, _, c, hc => by
    simp [serVal] at hc
    rcases hc with rfl | rfl <;> decide
  | .jarr (.cons x xs), hok, c, hc => by
    have hoks : serOkVal x = true ∧ serOkArr xs = true := by
      simpa [serOkVal, serOkArr] using hok
    simp only [serVal, List.mem_cons, List.mem_append, List.mem_singleton] at hc
    rcases hc with ((rfl | hc1) | hc2) | rfl | h0
    · decide
    · exact serVal_chars x hoks.1 c hc1
    · exact serItems_chars xs hoks.2 c hc2
    · decide
    · cases h0
  | .jobj .nil, _, c, hc => by
    simp [serVal] at hc
    rcases hc with rfl | rfl <;> decide
  | .jobj (.cons k v t), hok, c, hc => by
    have hoks : okChars k.data = true ∧ serOkVal v = true ∧ serOkObj t = true := by
      have h2 := hok
      simp only [serOkVal, serOkObj, Bool.and_eq_true] at h2
      exact ⟨h2.1.1.1, h2.1.1.2, h2.2⟩
    simp only [serVal, List.mem_cons, List.mem_append, List.mem_singleton] at hc
    rcases hc with (((rfl | hk) | rfl | hv) | hp) | rfl | h0
    · decide
    · exact serStr_chars k hoks.1 c hk
    · decide
    · exact serVal_chars v hoks.2.1 c hv
    · exact serPairs_chars t hoks.2.2 c hp
    · decide
    · cases h0

theorem serItems_chars : ∀ (xs : JArr), serOkArr xs = true → ∀ c ∈ serItems xs, okChar c = true
  | .nil, _, c, hc => by simp [serItems] at hc
  | .cons x xs, hok, c, hc => by
    have hoks : serOkVal x = true ∧ serOkArr xs = true := by
      simpa [serOkArr] using hok
    simp only [serItems, List.mem_cons, List.mem_append] at hc
    rcases hc with (rfl | hc1) | hc2
    · decide
    · exact serVal_chars x hoks.1 c hc1
    · exact serItems_chars xs hoks.2 c hc2

theorem serPairs_chars : ∀ (o : JObj), serOkObj o = true → ∀ c ∈ serPairs o, okChar c = true
  | .nil, _, c, hc => by simp [serPairs] at hc
  | .cons k v t, hok, c, hc => by
    have hoks : okChars k.data = true ∧ serOkVal v = true ∧ serOkObj t = true := by
      simp only [serOkObj, Bool.and_eq_true] at hok
      exact ⟨hok.1.1.1, hok.1.1.2, hok.2⟩
    simp only [serPairs, List.mem_cons, List.mem_append] at hc
    rcases hc with ((rfl | hk) | rfl | hv) | hp
    · decide
    · exact serStr_chars k hoks.1 c hk
    · decide
    · exact serVal_chars v hoks.2.1 c hv
    · exact serPairs_chars t hoks.2.2 c hp
end

/-! ## Base64 encode/decode round trip -/

theorem b64idx_b64chr : ∀ n, n < 64 → b64idx (b64chr n) = some n := by decide

theorem b64chr_ne_eq_cr_lf (n : Nat) :
    b64chr n ≠ '=' ∧ b64chr n ≠ '\r' ∧ b64chr n ≠ '\n' := by
  by_cases h : n < 64
  · revert h
    revert n
    decide
  · have hlen : b64Alphabet.length ≤ n := by
      simp [b64Alphabet]
      omega
    rw [b64chr, List.getD_eq_default _ _ hlen]
    decide

theorem b64encGroups_mem : ∀ (bs : List Nat) (x : Char), x ∈ b64encGroups bs →
    x = '=' ∨ ∃ n, x = b64chr n
  | [], x, hx => by simp [b64encGroups] at hx
  | [a], x, hx => by
    simp [b64encGroups] at hx
    casesm* _ ∨ _
    all_goals subst_vars
    all_goals first
      | exact Or.inl rfl
      | exact Or.inr ⟨_, rfl⟩
  | [a, b], x, hx => by
    simp [b64encGroups] at hx
    casesm* _ ∨ _
    all_goals subst_vars
    all_goals first
      | exact Or.inl rfl
      | exact Or.inr ⟨_, rfl⟩
  | a :: b :: c :: rest, x, hx => by
    simp only [b64encGroups, List.mem_cons] at hx
    rcases hx with rfl | rfl | rfl | rfl | hx2
    · exact Or.inr ⟨_, rfl⟩
    · exact Or.inr ⟨_, rfl⟩
    · exact Or.inr ⟨_, rfl⟩
    · exact Or.inr ⟨_, rfl⟩
    · exact b64encGroups_mem rest x hx2

theorem b64enc_filter (bs : List Nat) :
    (b64encGroups bs).filter (fun c => !(c = '\r' || c = '\n')) = b64encGroups bs := by
  rw [List.filter_eq_self]
  intro x hx
  rcases b64encGroups_mem bs x hx with rfl | ⟨n, rfl⟩
  · decide
  · simp [(b64chr_ne_eq_cr_lf n).2.1, (b64chr_ne_eq_cr_lf n).2.2]

theorem b64_enc_dec : ∀ (bs : List Nat), (∀ b ∈ bs, b < 256) →
    b64decGroups (b64encGroups bs) = some bs
  | [], _ => rfl
  | [a], h => by
    have ha : a < 256 := h a (by simp)
    show b64decGroups [b64chr (a / 4), b64chr (a % 4 * 16), '=', '='] = some [a]
    rw [b64decGroups]
    simp [b64idx_b64chr (a / 4) (by omega : a / 4 < 64),
      b64idx_b64chr (a % 4 * 16) (by omega : a % 4 * 16 < 64)]
    omega
  | [a, b], h => by
    have ha : a < 256 := h a (by simp)
    have hb : b < 256 := h b (by simp)
    show b64decGroups
      [b64chr (a / 4), b64chr (a % 4 * 16 + b / 16), b64chr (b % 16 * 4), '='] = some [a, b]
    rw [b64decGroups]
    simp [(b64chr_ne_eq_cr_lf (b % 16 * 4)).1,
      b64idx_b64chr (a / 4) (by omega : a / 4 < 64),
      b64idx_b64chr (a % 4 * 16 + b / 16) (by omega : a % 4 * 16 + b / 16 < 64),
      b64idx_b64chr (b % 16 * 4) (by omega : b % 16 * 4 < 64)]
    omega
  | a :: b :: c :: rest, h => by
    have ha : a < 256 := h a (by simp)
    have hb : b < 256 := h b (by simp)
    have hc : c < 256 := h c (by simp)
    have ih := b64_enc_dec rest (fun x hx => h x (by simp [hx]))
    show b64decGroups
      (b64chr (a / 4) :: b64chr (a % 4 * 16 + b / 16) ::
        b64chr (b % 16 * 4 + c / 64) :: b64chr (c % 64) :: b64encGroups rest) = _
    rw [b64decGroups]
    simp [(b64chr_ne_eq_cr_lf (b % 16 * 4 + c / 64)).1, (b64chr_ne_eq_cr_lf (c % 64)).1,
      b64idx_b64chr (a / 4) (by omega : a / 4 < 64),
      b64idx_b64chr (a % 4 * 16 + b / 16) (by omega : a % 4 * 16 + b / 16 < 64),
      b64idx_b64chr (b % 16 * 4 + c / 64) (by omega : b % 16 * 4 + c / 64 < 64),
      b64idx_b64chr (c % 64) (by omega : c % 64 < 64), ih]
    omega

/-- `DecodeString` inverts `EncodeToString` on byte lists. -/
theorem b64decodeStr_encodeStr (bs : List Nat) (h : ∀ b ∈ bs, b < 256) :
    b64decodeStr (b64encodeStr bs) = some bs := by
  rw [b64decodeStr, b64encodeStr]
  show b64decGroups ((b64encGroups bs).filter _) = some bs
  rw [b64enc_filter, b64_enc_dec bs h]

/-! ## Decoding an encoded token -/

theorem map_ofNat_toNat (l : List Char) : (l.map Char.toNat).map Char.ofNat = l := by
  induction l with
  | nil => rfl
  | cons c t ih => simp [Char.ofNat_toNat, ih]

theorem okChar_toNat_lt {c : Char} (h : okChar c = true) : c.toNat < 256 := by
  simp [okChar] at h
  omega

/-- The serialized outer array `[proof, claimJSON]` of a token. -/
def outerArr (proof : String) (claim : JObj) : Jval :=
  .jarr (.cons (.jstr proof) (.cons (.jstr (String.mk (serVal (.jobj claim)))) .nil))

theorem outerArr_serOk (proof : String) (claim : JObj)
    (hp : okChars proof.data = true) (hc : serOkObj claim = true) :
    serOkVal (outerArr proof claim) = true := by
  have hcj : okChars (serVal (Jval.jobj claim)) = true :=
    List.all_eq_true.mpr (serVal_chars (Jval.jobj claim) (by simpa [serOkVal] using hc))
  simp [outerArr, serOkVal, serOkArr, hp]
  exact hcj

/-- Decoding a token built by `encodeToken` succeeds and returns the proof
and the claim object. -/
theorem decode_encodeToken (proof : String) (claim : JObj)
    (hp : okChars proof.data = true) (hc : serOkObj claim = true)
    (hmiss : missingFields claim = []) :
    Token.Decode (New (encodeToken proof claim)) = .ok (proof, claim) := by
  have hok := outerArr_serOk proof claim hp hc
  have hbytes : ∀ b ∈ (serVal (outerArr proof claim)).map Char.toNat, b < 256 := by
    intro b hb
    simp only [List.mem_map] at hb
    obtain ⟨c, hcm, rfl⟩ := hb
    exact okChar_toNat_lt (serVal_chars _ hok c hcm)
  have hdec : b64decodeStr (encodeToken proof claim) =
      some ((serVal (outerArr proof claim)).map Char.toNat) := by
    rw [encodeToken]
    exact b64decodeStr_encodeStr _ hbytes
  have hjson : unmarshalStringArray ((serVal (outerArr proof claim)).map Char.toNat) =
      some [proof, String.mk (serVal (.jobj claim))] := by
    rw [unmarshalStringArray, map_ofNat_toNat, jsonUnmarshal_serVal _ hok]
    rfl
  have hclaim : unmarshalClaimMap (String.mk (serVal (.jobj claim))) = some claim := by
    rw [unmarshalClaimMap]
    show (jsonUnmarshal (serVal (.jobj claim))).bind toClaimMap = some claim
    rw [jsonUnmarshal_serVal _ (by simpa [serOkVal] using hc)]
    rfl
  show Token.Decode (New (encodeToken proof claim)) = .ok (proof, claim)
  rw [Token.Decode]
  show (match b64decodeStr (encodeToken proof claim) with
    | none => GoRes.err malformedB64Msg
    | some decodedDIDToken => _) = _
  rw [hdec]
  simp only []
  rw [hjson]
  simp only []
  rw [hclaim]
  simp only [checkRequiredFields, hmiss]
  rfl

/-! ## Validate on a decoded token -/

/-- `Validate` on a token whose decode succeeds and whose `ext`/`nbf` are
numeric reduces to the two time-window checks. -/
theorem validate_eq (t : Token) (now : Int) (p : String) (kvs : JObj)
    (me ee mn en : Int)
    (hd : t.Decode = .ok (p, kvs))
    (hext : kvs.lookup "ext" = some (.jnum me ee))
    (hnbf : kvs.lookup "nbf" = some (.jnum mn en)) :
    t.Validate now =
      (if now > goTrunc me ee then .err expiredMsg
       else if now < goTrunc mn en - DIDTokenNBFGracePeriod then .err nbfMsg
       else .ok ()) := by
  rw [Token.Validate, hd]
  simp only [hext, hnbf, goNumAssert]

/-! Concrete tokens used by the witnesses and counterexamples. -/

/-- A fully well-formed claim object. -/
def claimA : JObj :=
  .cons "iat" (.jnum 1 0) (.cons "ext" (.jnum 2000000000 0) (.cons "nbf" (.jnum 0 0)
    (.cons "iss" (.jstr "did:ethr:0xABCDEF") (.cons "sub" (.jstr "s")
      (.cons "aud" (.jstr "a") (.cons "tid" (.jstr "t") .nil))))))

def tokA : String := encodeToken "the-proof" claimA

/-- Well-formed claim whose issuer has only two segments. -/
def claimTwoSeg : JObj :=
  .cons "iat" (.jnum 1 0) (.cons "ext" (.jnum 2000000000 0) (.cons "nbf" (.jnum 0 0)
    (.cons "iss" (.jstr "did:ethr") (.cons "sub" (.jstr "s")
      (.cons "aud" (.jstr "a") (.cons "tid" (.jstr "t") .nil))))))

def tokTwoSeg : String := encodeToken "p" claimTwoSeg

/-- Well-formed claim whose `iss` is a number, not a string. -/
def claimIssNum : JObj :=
  .cons "iat" (.jnum 1 0) (.cons "ext" (.jnum 2000000000 0) (.cons "nbf" (.jnum 0 0)
    (.cons "iss" (.jnum 123 0) (.cons "sub" (.jstr "s")
      (.cons "aud" (.jstr "a") (.cons "tid" (.jstr "t") .nil))))))

def tokIssNum : String := encodeToken "p" claimIssNum

/-- Well-formed claim whose `iss` is a boolean. -/
def claimIssBool : JObj :=
  .cons "iat" (.jnum 1 0) (.cons "ext" (.jnum 2000000000 0) (.cons "nbf" (.jnum 0 0)
    (.cons "iss" (.jbool true) (.cons "sub" (.jstr "s")
      (.cons "aud" (.jstr "a") (.cons "tid" (.jstr "t") .nil))))))

def tokIssBool : String := encodeToken "p" claimIssBool

/-- Claim missing `ext` and `aud`, with the remaining keys in scrambled
order. -/
def claimMissing : JObj :=
  .cons "tid" (.jstr "t") (.cons "iss" (.jstr "x") (.cons "sub" (.jstr "s")
    (.cons "iat" (.jnum 1 0) (.cons "nbf" (.jnum 0 0) .nil))))

def tokMissing : String := encodeToken "p" claimMissing

/-- Claim that is both expired and not yet valid at time 1000. -/
def claimBoth : JObj :=
  .cons "iat" (.jnum 1 0) (.cons "ext" (.jnum 0 0) (.cons "nbf" (.jnum 10000 0)
    (.cons "iss" (.jstr "x") (.cons "sub" (.jstr "s")
      (.cons "aud" (.jstr "a") (.cons "tid" (.jstr "t") .nil))))))

def tokBoth : String := encodeToken "p" claimBoth

def mkTimeClaim (ext nbf : Int) : JObj :=
  .cons "iat" (.jnum 1 0) (.cons "ext" (.jnum ext 0) (.cons "nbf" (.jnum nbf 0)
    (.cons "iss" (.jstr "x") (.cons "sub" (.jstr "s")
      (.cons "aud" (.jstr "a") (.cons "tid" (.jstr "t") .nil))))))

def tokNbf301 : String := encodeToken "p" (mkTimeClaim 2000000000 1301)
def tokNbf299 : String := encodeToken "p" (mkTimeClaim 2000000000 1299)
def tokExt999 : String := encodeToken "p" (mkTimeClaim 999 0)
def tokExt1001 : String := encodeToken "p" (mkTimeClaim 1001 0)

/-- Raw token whose claim string is the JSON literal `null`. -/
def tokNullClaim : String := b64encodeStr ("[\x22p\x22,\x22null\x22]".data.map Char.toNat)

/-- Valid base64 whose payload is not JSON. -/
def tokNotJson : String := b64encodeStr ("notjson".data.map Char.toNat)

/-- A second valid-base64, non-JSON payload. -/
def tokNotJson2 : String := b64encodeStr ("also not json".data.map Char.toNat)

/-- Valid base64 of a one-element JSON array. -/
def tokOneElem : String := b64encodeStr ("[\x22a\x22]".data.map Char.toNat)

/-- Valid base64 of `[proof, claim]` whose claim string is invalid JSON. -/
def tokBadClaim : String := b64encodeStr ("[\x22p\x22,\x22nope\x22]".data.map Char.toNat)

/-- C10: in the panic-based variant, the `DIDToken` argument of `Validate`
has no influence: at any one time, any two argument strings produce the
same result, a function of the stored token and the clock only. -/
theorem pValidate_ignores_argument (t : PToken) (a b : String) (now : Int) :
    t.Validate a now = t.Validate b now := rfl

/-- C7: a token that fails to decode does not make `Validate` return the
decode error: the error is overwritten by the `json.Marshal` result, and
`Validate` then panics on the `claim["ext"].(float64)` assertion over the
nil claim map. -/
theorem validate_swallows_decode_error :
    Token.Decode (New "####") = .err malformedB64Msg ∧
    Token.Validate (New "####") 0 = .panicked typeAssertPanicMsg ∧
    Token.Validate (New "####") 0 ≠ .err malformedB64Msg := by
  refine ⟨by rfl, by rfl, ?_⟩
  intro h
  cases h

/-- C4: `Issuer` on a decoded claim whose `iss` is the number `123` hits the
unchecked `.(string)` assertion and panics — there is no typed `TypeError`
result — while a string `iss` is returned verbatim. -/
theorem issuer_nonstring_iss_panics :
    (Token.Issuer (New tokIssNum)).1 = .panicked typeAssertPanicMsg ∧
    (Token.Issuer (New tokA)).1 = .ok "did:ethr:0xABCDEF" := by
  exact ⟨by rfl, by rfl⟩

/-- C3 (amended): `New` never fails and stores only the raw string, and
`Decode` of the error-returning variant signals failure only through a
returned error value, never a panic. -/
theorem decode_never_panics (s : String) :
    (New s).didToken = s ∧ (New s).proof = "" ∧ (New s).claim = none ∧
    ((New s).Decode).isPanic = false := by
  refine ⟨rfl, rfl, rfl, ?_⟩
  rw [Token.Decode]
  cases hb : b64decodeStr (New s).didToken with
  | none => rfl
  | some bytes =>
    simp only []
    cases ha : unmarshalStringArray bytes with
    | none => rfl
    | some arr =>
      simp only []
      match arr with
      | [] => rfl
      | [p] => rfl
      | p :: c :: d :: t => rfl
      | [p, cstr] =>
        simp only []
        cases hc : unmarshalClaimMap cstr with
        | none => rfl
        | some kvs =>
          simp only []
          cases hm : checkRequiredFields kvs with
          | none => rfl
          | some msg => rfl

/-- C3 (counterexample): `Issuer` of the error-returning variant panics on a
boolean `iss` (a Go interface-conversion runtime panic, not a returned
error), and the panic-based variant signals even an encoding failure by
panicking. -/
theorem issuer_assert_panic_exists :
    (Token.Issuer (New tokIssBool)).1 = .panicked typeAssertPanicMsg ∧
    PToken.Decode (PNew "%%%%") = .panicked pMalformedB64Msg := by
  exact ⟨by rfl, by rfl⟩

/-- C9 (counterexample): after a successful `Issuer` call the token stores
the claim but not the proof: the decode returned the proof `"the-proof"`,
yet the stored proof field is still empty. -/
theorem issuer_stores_claim_without_proof :
    Token.Decode (New tokA) = .ok ("the-proof", claimA) ∧
    (Token.Issuer (New tokA)).2.claim = some claimA ∧
    (Token.Issuer (New tokA)).2.proof = "" ∧
    "the-proof" ≠ "" := by
  refine ⟨by rfl, by rfl, by rfl, by decide⟩

/-- C9 (amended): no operation ever populates the `proof` field — `Issuer`
and `PublicAddress` leave it unchanged (empty on a fresh token) — while a
successful `Issuer` on an undecoded token stores exactly the decoded
claim. -/
theorem issuer_never_stores_proof (t : Token) :
    ((t.Issuer).2.proof = t.proof ∧ (t.PublicAddress).2.proof = t.proof) ∧
    (t.claim = none → ∀ p c, t.Decode = .ok (p, c) → (t.Issuer).2.claim = some c) := by
  constructor
  · constructor
    · rw [Token.Issuer]
      cases hc : t.claim with
      | some c => rfl
      | none =>
        cases hd : t.Decode with
        | ok pc => rfl
        | err m => rfl
        | panicked m => rfl
    · rw [Token.PublicAddress]
      cases hi : t.Issuer with
      | mk fst t' =>
        have hproof : t'.proof = t.proof := by
          have := congrArg (fun pr => pr.2.proof) hi
          simp at this
          rw [← this]
          rw [Token.Issuer]
          cases hc : t.claim with
          | some c => rfl
          | none =>
            cases hd : t.Decode with
            | ok pc => rfl
            | err m => rfl
            | panicked m => rfl
        cases fst with
        | ok iss =>
          simp only []
          by_cases hlen : (goSplitColon iss).length < 3
          · rw [if_pos hlen]
            exact hproof
          · rw [if_neg hlen]
            exact hproof
        | err m => exact hproof
        | panicked m => exact hproof
  · intro hnone p c hd
    rw [Token.Issuer, hnone, hd]

theorem issuer_never_stores_proof_witness :
    (Token.Issuer (New tokA)).2.claim = some claimA ∧
    (Token.Issuer (New tokA)).2.proof = (New tokA).proof := by
  constructor
  · exact (issuer_never_stores_proof (New tokA)).2 (by rfl) "the-proof" claimA (by rfl)
  · exact (issuer_never_stores_proof (New tokA)).1.1

/-- C5: after a successful `Issuer` call, `PublicAddress` returns the third
colon-delimited segment of the issuer when splitting on `:` yields at least
three segments, and the malformed-issuer error when it yields fewer. -/
theorem publicAddress_segments (t t' : Token) (iss : String)
    (h : t.Issuer = (.ok iss, t')) :
    (3 ≤ (goSplitColon iss).length →
      t.PublicAddress = (.ok ((goSplitColon iss).getD 2 ""), t')) ∧
    ((goSplitColon iss).length < 3 →
      t.PublicAddress = (.err (malformedIssuerMsg iss), t')) := by
  constructor
  · intro hlen
    rw [Token.PublicAddress, h]
    simp only []
    rw [if_neg (by omega)]
  · intro hlen
    rw [Token.PublicAddress, h]
    simp only []
    rw [if_pos hlen]

theorem publicAddress_segments_witness :
    (Token.PublicAddress (New tokA)).1 = .ok "0xABCDEF" ∧
    (Token.PublicAddress (New tokTwoSeg)).1 = .err (malformedIssuerMsg "did:ethr") := by
  constructor
  · have h := (publicAddress_segments (New tokA) (Token.Issuer (New tokA)).2
      "did:ethr:0xABCDEF" (by rfl)).1 (by decide)
    rw [h]
    rfl
  · have h := (publicAddress_segments (New tokTwoSeg) (Token.Issuer (New tokTwoSeg)).2
      "did:ethr" (by rfl)).2 (by decide)
    rw [h]

/-- C6: when the outer decode succeeds but required claim keys are absent,
`Decode` fails with the missing-fields error listing exactly the absent
required keys: the reported list filters `RequiredFields`, so it is a
sublist of the canonical order (independent of the claim's own key order),
and a field occurs in it exactly when it is required and absent. -/
theorem decode_missing_fields (t : Token) (bytes : List Nat) (p cstr : String)
    (kvs : JObj)
    (h1 : b64decodeStr t.didToken = some bytes)
    (h2 : unmarshalStringArray bytes = some [p, cstr])
    (h3 : unmarshalClaimMap cstr = some kvs)
    (h4 : missingFields kvs ≠ []) :
    t.Decode = .err (missingMsg (missingFields kvs)) ∧
    missingFields kvs = RequiredFields.filter (fun f => !(kvs.hasKey f)) ∧
    (missingFields kvs).Sublist RequiredFields ∧
    (∀ f, f ∈ missingFields kvs ↔ (f ∈ RequiredFields ∧ kvs.hasKey f = false)) := by
  refine ⟨?_, rfl, List.filter_sublist _, ?_⟩
  · rw [Token.Decode, h1]
    simp only []
    rw [h2]
    simp only []
    rw [h3]
    simp only []
    rw [checkRequiredFields, if_pos (List.length_pos.mpr h4)]
  · intro f
    rw [missingFields, List.mem_filter]
    simp

theorem decode_missing_fields_witness :
    Token.Decode (New tokMissing) = .err (missingMsg ["ext", "aud"]) ∧
    missingFields claimMissing = ["ext", "aud"] := by
  have h := (decode_missing_fields (New tokMissing)
    ((serVal (outerArr "p" claimMissing)).map Char.toNat) "p"
    (String.mk (serVal (.jobj claimMissing))) claimMissing
    (by rfl) (by rfl) (by rfl) (by decide)).1
  exact ⟨by rw [h]; rfl, rfl⟩

/-- C1 (amended): `Decode` fails in a fixed stage order — base64 decode,
outer `[]string` unmarshal, two-element length check, claim-object
unmarshal, required-fields check — each stage reached only when every
earlier stage succeeded; but the first two stages return the same
malformed-token error value. -/
theorem decode_stage_order (s : String) :
    (b64decodeStr s = none → (New s).Decode = .err malformedB64Msg) ∧
    (∀ bytes, b64decodeStr s = some bytes → unmarshalStringArray bytes = none →
      (New s).Decode = .err malformedB64Msg) ∧
    (∀ bytes arr, b64decodeStr s = some bytes → unmarshalStringArray bytes = some arr →
      arr.length ≠ ExpectedDIDTokenContentLength → (New s).Decode = .err twoPartsMsg) ∧
    (∀ bytes p cstr, b64decodeStr s = some bytes →
      unmarshalStringArray bytes = some [p, cstr] → unmarshalClaimMap cstr = none →
      (New s).Decode = .err claimJSONMsg) ∧
    (∀ bytes p cstr kvs, b64decodeStr s = some bytes →
      unmarshalStringArray bytes = some [p, cstr] → unmarshalClaimMap cstr = some kvs →
      checkRequiredFields kvs = some (missingMsg (missingFields kvs)) →
      (New s).Decode = .err (missingMsg (missingFields kvs))) ∧
    (∀ bytes p cstr kvs, b64decodeStr s = some bytes →
      unmarshalStringArray bytes = some [p, cstr] → unmarshalClaimMap cstr = some kvs →
      checkRequiredFields kvs = none → (New s).Decode = .ok (p, kvs)) := by
  refine ⟨?_, ?_, ?_, ?_, ?_, ?_⟩
  · intro h1
    rw [Token.Decode]
    simp only [New]
    rw [h1]
  · intro bytes h1 h2
    rw [Token.Decode]
    simp only [New]
    rw [h1]
    simp only []
    rw [h2]
  · intro bytes arr h1 h2 hlen
    rw [Token.Decode]
    simp only [New]
    rw [h1]
    simp only []
    rw [h2]
    simp only []
    match arr, hlen with
    | [], _ => rfl
    | [a], _ => rfl
    | a :: b :: c :: t, _ => rfl
    | [a, b], hlen => exact absurd rfl hlen
  · intro bytes p cstr h1 h2 h3
    rw [Token.Decode]
    simp only [New]
    rw [h1]
    simp only []
    rw [h2]
    simp only []
    rw [h3]
  · intro bytes p cstr kvs h1 h2 h3 h4
    rw [Token.Decode]
    simp only [New]
    rw [h1]
    simp only []
    rw [h2]
    simp only []
    rw [h3]
    simp only []
    rw [h4]
  · intro bytes p cstr kvs h1 h2 h3 h4
    rw [Token.Decode]
    simp only [New]
    rw [h1]
    simp only []
    rw [h2]
    simp only []
    rw [h3]
    simp only []
    rw [h4]

theorem decode_stage_order_witness :
    Token.Decode (New "####") = .err malformedB64Msg ∧
    Token.Decode (New tokNotJson) = .err malformedB64Msg ∧
    Token.Decode (New tokOneElem) = .err twoPartsMsg ∧
    Token.Decode (New tokBadClaim) = .err claimJSONMsg ∧
    Token.Decode (New tokMissing) = .err (missingMsg (missingFields claimMissing)) ∧
    Token.Decode (New tokA) = .ok ("the-proof", claimA) := by
  refine ⟨?_, ?_, ?_, ?_, ?_, ?_⟩
  · exact (decode_stage_order "####").1 (by rfl)
  · exact (decode_stage_order tokNotJson).2.1 ("notjson".data.map Char.toNat)
      (by rfl) (by rfl)
  · exact (decode_stage_order tokOneElem).2.2.1 ("[\x22a\x22]".data.map Char.toNat)
      ["a"] (by rfl) (by rfl) (by decide)
  · exact (decode_stage_order tokBadClaim).2.2.2.1
      ("[\x22p\x22,\x22nope\x22]".data.map Char.toNat) "p" "nope"
      (by rfl) (by rfl) (by rfl)
  · exact (decode_stage_order tokMissing).2.2.2.2.1
      ((serVal (outerArr "p" claimMissing)).map Char.toNat) "p"
      (String.mk (serVal (.jobj claimMissing))) claimMissing
      (by rfl) (by rfl) (by rfl) (by rfl)
  · exact (decode_stage_order tokA).2.2.2.2.2
      ((serVal (outerArr "the-proof" claimA)).map Char.toNat) "the-proof"
      (String.mk (serVal (.jobj claimA))) claimA
      (by rfl) (by rfl) (by rfl) (by rfl)

/-- C1 (counterexample): the stages are not all error-distinguishable.  The
claim string `"null"` is valid JSON that does not represent an object, yet
`Decode` reports the missing-fields error (Go unmarshals JSON `null` into a
map as a no-op, leaving the map nil), not the inner-shape error; and a
base64-stage failure and an outer-shape-stage failure return one identical
error value. -/
theorem decode_stage_not_distinguishable :
    Token.Decode (New tokNullClaim) = .err (missingMsg RequiredFields) ∧
    unmarshalClaimMap "null" = some JObj.nil ∧
    missingMsg RequiredFields ≠ claimJSONMsg ∧
    Token.Decode (New "%%%%") = .err malformedB64Msg ∧
    b64decodeStr "%%%%" = none ∧
    Token.Decode (New tokNotJson2) = .err malformedB64Msg ∧
    b64decodeStr tokNotJson2 = some ("also not json".data.map Char.toNat) := by
  refine ⟨by rfl, by rfl, by decide, by rfl, by rfl, by rfl, by rfl⟩

/-- C2 (amended): on a decoded token with numeric `ext`/`nbf`, `Validate`
returns the expired error iff the truncated `ext` is before `now`; it
returns the not-yet-valid error iff the token is not expired and `now` is
before truncated `nbf` minus the 300-second grace period (the expiry check
runs first); and it succeeds iff neither condition holds. -/
theorem validate_time_window (t : Token) (now : Int) (p : String) (kvs : JObj)
    (me ee mn en : Int)
    (hd : t.Decode = .ok (p, kvs))
    (hext : kvs.lookup "ext" = some (.jnum me ee))
    (hnbf : kvs.lookup "nbf" = some (.jnum mn en)) :
    (t.Validate now = .err expiredMsg ↔ goTrunc me ee < now) ∧
    (t.Validate now = .err nbfMsg ↔
      (¬ goTrunc me ee < now ∧ now < goTrunc mn en - DIDTokenNBFGracePeriod)) ∧
    (t.Validate now = .ok () ↔
      (¬ goTrunc me ee < now ∧ ¬ now < goTrunc mn en - DIDTokenNBFGracePeriod)) := by
  rw [validate_eq t now p kvs me ee mn en hd hext hnbf]
  by_cases h1 : goTrunc me ee < now
  · rw [if_pos h1]
    refine ⟨by simp [h1], ⟨?_, ?_⟩, by simp [h1]⟩
    · intro h
      injection h with hm
      exact absurd hm (by decide)
    · intro h
      exact absurd h1 h.1
  · rw [if_neg h1]
    by_cases h2 : now < goTrunc mn en - DIDTokenNBFGracePeriod
    · rw [if_pos h2]
      refine ⟨⟨?_, ?_⟩, by simp [h1, h2], by simp [h2]⟩
      · intro h
        injection h with hm
        exact absurd hm (by decide)
      · intro h
        exact absurd h h1
    · rw [if_neg h2]
      exact ⟨by simp [h1], by simp [h2], by simp [h1, h2]⟩

theorem validate_time_window_witness :
    Token.Validate (New tokNbf301) 1000 = .err nbfMsg ∧
    Token.Validate (New tokNbf299) 1000 = .ok () ∧
    Token.Validate (New tokExt999) 1000 = .err expiredMsg ∧
    Token.Validate (New tokExt1001) 1000 = .ok () := by
  refine ⟨?_, ?_, ?_, ?_⟩
  · exact (validate_time_window (New tokNbf301) 1000 "p" (mkTimeClaim 2000000000 1301)
      2000000000 0 1301 0 (by rfl) (by rfl) (by rfl)).2.1.mpr (by decide)
  · exact (validate_time_window (New tokNbf299) 1000 "p" (mkTimeClaim 2000000000 1299)
      2000000000 0 1299 0 (by rfl) (by rfl) (by rfl)).2.2.mpr (by decide)
  · exact (validate_time_window (New tokExt999) 1000 "p" (mkTimeClaim 999 0)
      999 0 0 0 (by rfl) (by rfl) (by rfl)).1.mpr (by decide)
  · exact (validate_time_window (New tokExt1001) 1000 "p" (mkTimeClaim 1001 0)
      1001 0 0 0 (by rfl) (by rfl) (by rfl)).2.2.mpr (by decide)

/-- C2 (counterexample): the expiry check runs before the not-before check,
so a token that is both expired and not yet valid at time 1000 yields the
expired error even though the not-yet-valid condition holds, falsifying an
unconditional iff for `NotYetValid`. -/
theorem validate_expired_precedence :
    Token.Validate (New tokBoth) 1000 = .err expiredMsg ∧
    goTrunc 0 0 < 1000 ∧
    (1000 : Int) < goTrunc 10000 0 - DIDTokenNBFGracePeriod ∧
    Token.Validate (New tokBoth) 1000 ≠ .err nbfMsg := by
  refine ⟨by rfl, by decide, by decide, ?_⟩
  intro h
  have he : Token.Validate (New tokBoth) 1000 = GoRes.err expiredMsg := by rfl
  rw [he] at h
  injection h with hm
  exact absurd hm (by decide)

/-- C8: round trip — a token built by base64-encoding the serialized
`[proof, claimJSON]` array from any serializable claim with all required
fields present, numeric `ext` and `nbf`, `ext` at or after `now`, and `nbf`
within the grace window, decodes to exactly the encoded proof and claim and
validates successfully. -/
theorem decode_validate_roundtrip (proof : String) (claim : JObj)
    (now me ee mn en : Int)
    (hp : okChars proof.data = true) (hc : serOkObj claim = true)
    (hmiss : missingFields claim = [])
    (hext : claim.lookup "ext" = some (.jnum me ee))
    (hnbf : claim.lookup "nbf" = some (.jnum mn en))
    (hfar : now ≤ goTrunc me ee)
    (hpast : goTrunc mn en - DIDTokenNBFGracePeriod ≤ now) :
    Token.Decode (New (encodeToken proof claim)) = .ok (proof, claim) ∧
    Token.Validate (New (encodeToken proof claim)) now = .ok () := by
  have hd := decode_encodeToken proof claim hp hc hmiss
  refine ⟨hd, ?_⟩
  rw [validate_eq _ now proof claim me ee mn en hd hext hnbf,
    if_neg (by omega), if_neg (by omega)]

theorem decode_validate_roundtrip_witness :
    Token.Decode (New tokA) = .ok ("the-proof", claimA) ∧
    Token.Validate (New tokA) 1000 = .ok () :=
  decode_validate_roundtrip "the-proof" claimA 1000 2000000000 0 0 0
    (by decide) (by decide) (by rfl) (by rfl) (by rfl) (by decide) (by decide)
